import Mathlib

set_option maxHeartbeats 1000000
set_option maxRecDepth 4000

namespace AngularParser

/-! Shallow embedding of the template inlining and rewriting engine
(`convertAngularTemplateToHTML` and `processReusableComponents`).
Each JS `String.replace(/pattern/g, cb)` pass is embedded as a left-to-right
scanner that tries the specific pattern at each position, emits the callback
result on a match, and resumes after the consumed span (replacements are not
rescanned), which is exactly the semantics of a global regex replace.
The ambient clock read by `new Date().getFullYear()` is modelled as an
explicit `year : Nat` parameter. -/

/-- JS `\w` character class: ASCII letters, digits and underscore. -/
def isWordChar (c : Char) : Bool := c.isAlphanum || c == '_'

/-- JS `\s` character class (the whitespace characters relevant here). -/
def isSpaceChar (c : Char) : Bool :=
  c == ' ' || c == '\t' || c == '\n' || c == '\r' || c == '\x0b' || c == '\x0c'

/-- The single-quote character (written via its code point). -/
def squoteChar : Char := Char.ofNat 39

/-- JS `String.prototype.trim`. -/
def trimChars (s : List Char) : List Char :=
  ((s.dropWhile isSpaceChar).reverse.dropWhile isSpaceChar).reverse

def trimS (s : String) : String := String.mk (trimChars s.data)

/-- Does `s` start with `needle`? -/
def startsWithChars : List Char → List Char → Bool
  | [], _ => true
  | _ :: _, [] => false
  | c :: cs, d :: ds => c == d && startsWithChars cs ds

/-- JS `String.prototype.includes` on substrings. -/
def hasSub (needle : List Char) : List Char → Bool
  | [] => startsWithChars needle []
  | c :: t => startsWithChars needle (c :: t) || hasSub needle t

/-- Consume a literal: `dropLit lit s = some r` iff `s = lit ++ r`. -/
def dropLit : List Char → List Char → Option (List Char)
  | [], s => some s
  | _ :: _, [] => none
  | c :: cs, d :: ds => if d == c then dropLit cs ds else none

/-- The JS values the engine stores in a data context. -/
inductive JSValue where
  | str (s : String)
  | bool (b : Bool)
  | num (n : Int)
  | obj (fields : List (String × JSValue))

/-- JS `String(value)` coercion for the values above. -/
def jsToString : JSValue → String
  | .str s => s
  | .bool b => if b then "true" else "false"
  | .num n => toString n
  | .obj _ => "[object Object]"

/-- JS truthiness for the values above. -/
def jsTruthy : JSValue → Bool
  | .str s => s != ""
  | .bool b => b
  | .num n => n != 0
  | .obj _ => true

/-- A JS object used as a flat data context: insertion-ordered key/value pairs
with at most one entry per key (plain string keys). -/
abbrev Ctx := List (String × JSValue)

def hasKey (m : Ctx) (k : String) : Bool := m.any (fun kv => kv.1 == k)

/-- JS property read `m[k]` (first, i.e. unique, entry for the key). -/
def ctxGet (m : Ctx) (k : String) : Option JSValue :=
  (m.find? (fun kv => kv.1 == k)).map (fun kv => kv.2)

/-- JS property write `m[k] = v`: overwrites in place, else appends. -/
def jsObjSet (m : Ctx) (k : String) (v : JSValue) : Ctx :=
  if hasKey m k then m.map (fun kv => if kv.1 == k then (k, v) else kv)
  else m ++ [(k, v)]

/-- One global replacement pass, JS `str.replace(/re/g, cb)` style: the matcher
returns the capture data and the total length (at least 1) of the matched span.
The fuel argument only makes the recursion structural; every step consumes at
least one character, so the string length is always enough fuel. -/
def replacePureAux (m : List Char → Option (α × Nat)) (f : α → List Char) :
    Nat → List Char → List Char
  | _, [] => []
  | 0, s => s
  | fuel + 1, c :: cs =>
    match m (c :: cs) with
    | some (a, n) => f a ++ replacePureAux m f fuel (cs.drop (n - 1))
    | none => c :: replacePureAux m f fuel cs

def replacePure (m : List Char → Option (α × Nat)) (f : α → List Char)
    (s : List Char) : List Char :=
  replacePureAux m f s.length s

/-- Is there a match of `m` at any position of `s`? -/
def scanHas (m : List Char → Option (α × Nat)) : List Char → Bool
  | [] => false
  | c :: cs => (m (c :: cs)).isSome || scanHas m cs

/-- All matches of `m` in `s`, in order, skipping consumed spans
(JS global `exec` loop semantics). -/
def scanCollectAux (m : List Char → Option (α × Nat)) : Nat → List Char → List α
  | _, [] => []
  | 0, _ => []
  | fuel + 1, c :: cs =>
    match m (c :: cs) with
    | some (a, n) => a :: scanCollectAux m fuel (cs.drop (n - 1))
    | none => scanCollectAux m fuel cs

def scanCollect (m : List Char → Option (α × Nat)) (s : List Char) : List α :=
  scanCollectAux m s.length s

/-- Does the replace scan reach a match satisfying `filt` (skipping consumed
spans of other matches, as the real pass would)? -/
def scanHasRAux (m : List Char → Option (α × Nat)) (filt : α → Bool) :
    Nat → List Char → Bool
  | _, [] => false
  | 0, _ => false
  | fuel + 1, c :: cs =>
    match m (c :: cs) with
    | some (a, n) => filt a || scanHasRAux m filt fuel (cs.drop (n - 1))
    | none => scanHasRAux m filt fuel cs

def scanHasR (m : List Char → Option (α × Nat)) (filt : α → Bool) (s : List Char) : Bool :=
  scanHasRAux m filt s.length s

/-! The interpolation pass: `/\{\{([^}]+)\}\}/g`. -/

def matchInterp (s : List Char) : Option (List Char × Nat) :=
  match s with
  | '{' :: '{' :: r =>
    let e := r.takeWhile (fun c => c != '}')
    if e.isEmpty then none
    else match r.dropWhile (fun c => c != '}') with
      | '}' :: '}' :: _ => some (e, e.length + 4)
      | _ => none
  | _ => none

/-- Dotted-path branch of the interpolation callback: walk nested objects,
falling back to the last path segment as a placeholder. -/
def walkPath : JSValue → List (List Char) → Option JSValue
  | v, [] => some v
  | v, p :: rest =>
    match v with
    | .obj fields =>
      match ctxGet fields (String.mk p) with
      | some v2 => walkPath v2 rest
      | none => none
    | _ => none

def interpDotPath (componentData : Ctx) (trimmed : String) : String :=
  let parts := trimmed.data.splitOn '.'
  match walkPath (JSValue.obj componentData) parts with
  | some v => jsToString v
  | none => String.mk (parts.getLastD [])

/-- The interpolation callback on the trimmed expression text. -/
def interpResolve (componentData : Ctx) (year : Nat) (trimmed : String) : String :=
  if trimmed.data.contains '(' && trimmed.data.contains ')' then
    if hasSub "Date".data trimmed.data then "Oct 24, 2023"
    else if hasSub "currency".data trimmed.data then "$1,234.56"
    else if hasSub "status".data trimmed.data then "Active"
    else "Sample Value"
  else match ctxGet componentData trimmed with
  | some v => jsToString v
  | none =>
    if trimmed.data.contains '.' then interpDotPath componentData trimmed
    else if trimmed == "currentYear" || trimmed == "new Date().getFullYear()" then
      toString year
    else trimmed

def interpCb (componentData : Ctx) (year : Nat) (e : List Char) : List Char :=
  (interpResolve componentData year (String.mk (trimChars e))).data

/-! The property-binding pass: `/\[([^\]]+)\]="([^"]+)"/g`. -/

def matchProp (s : List Char) : Option ((List Char × List Char) × Nat) :=
  match s with
  | '[' :: r =>
    let p := r.takeWhile (fun c => c != ']')
    if p.isEmpty then none
    else match r.dropWhile (fun c => c != ']') with
      | ']' :: '=' :: '"' :: r2 =>
        let v := r2.takeWhile (fun c => c != '"')
        if v.isEmpty then none
        else match r2.dropWhile (fun c => c != '"') with
          | '"' :: _ => some ((p, v), p.length + v.length + 5)
          | _ => none
      | _ => none
  | _ => none

/-- Word-boundary global replace, the semantics of `new RegExp("\b" + key + "\b", "g")`
for an identifier-like key: replace occurrences of `key` whose neighbours are
non-word characters or the string edges. -/
def wbAfterOk (key : List Char) (s : List Char) : Bool :=
  match s.drop key.length with
  | [] => true
  | d :: _ => !isWordChar d

def wbReplaceCharsAux (key repl : List Char) : Nat → Bool → List Char → List Char
  | _, _, [] => []
  | 0, _, s => s
  | fuel + 1, prevWord, c :: cs =>
    if !prevWord && startsWithChars key (c :: cs) && wbAfterOk key (c :: cs) then
      repl ++ wbReplaceCharsAux key repl fuel true (cs.drop (key.length - 1))
    else
      c :: wbReplaceCharsAux key repl fuel (isWordChar c) cs

def wbReplaceStr (key repl s : String) : String :=
  String.mk (wbReplaceCharsAux key.data repl.data s.data.length false s.data)

/-- Would `new RegExp("\b" + key + "\b")` compile? Exact for the keys this
engine itself constructs (nonempty `\w+` captures, which always compile) and
for delimiter keys such as "(" (a lone group opener, which throws a
SyntaxError in the constructor). -/
def validRegexKey (k : String) : Bool := !(k == "") && k.data.all isWordChar

/-- The class-binding branch for a value holding a quote: split on `+`,
trim and strip quotes, join, then substitute context keys under word
boundaries. -/
def classConcatResolve (componentData : Ctx) (value : String) : String :=
  let parts := (value.data.splitOn '+').map
    (fun p => (trimChars p).filter (fun c => !(c == squoteChar || c == '"')))
  let classValue := String.intercalate " " (parts.map String.mk)
  let replaced := componentData.foldl
    (fun acc kv => wbReplaceStr kv.1 (if jsTruthy kv.2 then jsToString kv.2 else "") acc)
    classValue
  "class=\"" ++ trimS replaced ++ "\""

def booleanAttrsLookup : List String := ["readonly", "required", "checked", "selected", "hidden"]

def booleanAttrsRender : List String :=
  ["disabled", "readonly", "required", "checked", "selected", "hidden"]

def sliceEnds (s : String) : String := String.mk (s.data.drop 1).dropLast

def sqS : String := String.mk [squoteChar]

/-- The property-binding callback (class bindings, the forced `[disabled]`
drop, literal/boolean/context resolution, boolean-attribute rendering). -/
def propResolve (componentData : Ctx) (prop value : String) : String :=
  if prop == "class" then
    (if value.data.contains squoteChar || value.data.contains '"' then
      classConcatResolve componentData value
    else match ctxGet componentData (trimS value) with
      | some v => "class=\"" ++ jsToString v ++ "\""
      | none => "class=\"" ++ value ++ "\"")
  else if prop == "disabled" then ""
  else
    let valueTrimmed := trimS value
    let propValue : JSValue :=
      if (valueTrimmed.startsWith sqS && valueTrimmed.endsWith sqS) ||
         (valueTrimmed.startsWith "\"" && valueTrimmed.endsWith "\"") then
        .str (sliceEnds valueTrimmed)
      else if valueTrimmed == "true" then .bool true
      else if valueTrimmed == "false" then .bool false
      else match ctxGet componentData valueTrimmed with
        | some v => v
        | none =>
          if booleanAttrsLookup.contains prop.toLower then .bool false
          else .str valueTrimmed
    match propValue with
    | .bool true =>
      if booleanAttrsRender.contains prop.toLower then prop else prop ++ "=\"true\""
    | .bool false => ""
    | .str s =>
      if s == "true" then
        (if booleanAttrsRender.contains prop.toLower then prop else prop ++ "=\"true\"")
      else if s == "false" then ""
      else prop ++ "=\"" ++ s ++ "\""
    | other => prop ++ "=\"" ++ jsToString other ++ "\""

def propCb (componentData : Ctx) (pv : List Char × List Char) : List Char :=
  (propResolve componentData (String.mk pv.1) (String.mk pv.2)).data

/-! The remaining passes: event bindings, structural directives, router links. -/

/-- Matcher for a fixed attribute head followed by `"..."`, e.g.
`/\(click\)="([^"]+)"/g` with `lit` the text up to and including `="`. -/
def matchLitQuoted (lit : List Char) (s : List Char) : Option (List Char × Nat) :=
  match dropLit lit s with
  | some r =>
    let v := r.takeWhile (fun c => c != '"')
    if v.isEmpty then none
    else match r.dropWhile (fun c => c != '"') with
      | '"' :: _ => some (v, lit.length + v.length + 1)
      | _ => none
  | none => none

def matchClick : List Char → Option (List Char × Nat) := matchLitQuoted "(click)=\"".data

def matchMouseEnter : List Char → Option (List Char × Nat) :=
  matchLitQuoted "(mouseenter)=\"".data

def matchMouseLeave : List Char → Option (List Char × Nat) :=
  matchLitQuoted "(mouseleave)=\"".data

def matchNgIf : List Char → Option (List Char × Nat) := matchLitQuoted "*ngIf=\"".data

def matchRouterLink : List Char → Option (List Char × Nat) :=
  matchLitQuoted "routerLink=\"".data

def matchRouterLinkB : List Char → Option (List Char × Nat) :=
  matchLitQuoted "[routerLink]=\"".data

def matchRouterLinkActive : List Char → Option (List Char × Nat) :=
  matchLitQuoted "routerLinkActive=\"".data

/-- The `*ngIf` callback: hide loading/empty/error states, strip otherwise. -/
def ngIfCb (v : List Char) : List Char :=
  let cond := (trimChars v).map Char.toLower
  if hasSub "loading".data cond ||
     (cond.contains '!' &&
       (hasSub "data".data cond || hasSub "record".data cond || hasSub "item".data cond)) ||
     hasSub "length === 0".data cond || hasSub "error".data cond
  then "style=\"display: none !important;\"".data
  else []

/-- `/\*ngFor="let\s+(\w+)\s+of\s+([^"]+)"/g`: the span after `of` must begin
with whitespace and run (at least two characters in all) to the closing quote. -/
def matchNgFor (s : List Char) : Option (Unit × Nat) :=
  match dropLit "*ngFor=\"let".data s with
  | some r =>
    let ws1 := r.takeWhile isSpaceChar
    if ws1.isEmpty then none
    else
      let r1 := r.dropWhile isSpaceChar
      let v := r1.takeWhile isWordChar
      if v.isEmpty then none
      else
        let r2 := r1.dropWhile isWordChar
        let ws2 := r2.takeWhile isSpaceChar
        if ws2.isEmpty then none
        else match dropLit "of".data (r2.dropWhile isSpaceChar) with
          | some r3 =>
            let u := r3.takeWhile (fun c => c != '"')
            if u.length < 2 then none
            else match u with
              | u0 :: _ =>
                if isSpaceChar u0 then
                  match r3.dropWhile (fun c => c != '"') with
                  | '"' :: _ =>
                    some ((), 11 + ws1.length + v.length + ws2.length + 2 + u.length + 1)
                  | _ => none
                else none
              | [] => none
          | none => none
  | none => none

def routerLinkCb (v : List Char) : List Char := "href=\"".data ++ v ++ ['"']

def routerLinkBCb (componentData : Ctx) (v : List Char) : List Char :=
  let vt := String.mk (trimChars v)
  let route := match ctxGet componentData vt with
    | some jv => if jsTruthy jv then jsToString jv else vt
    | none => vt
  ("href=\"" ++ route ++ "\"").data

/-- The template rewriter: the ten global replacement passes of the source, in
source order. `year` models the ambient clock read for `currentYear`. -/
def convertAngularTemplateToHTML (template : String) (componentData : Ctx) (year : Nat) :
    String :=
  let s1 := replacePure matchInterp (interpCb componentData year) template.data
  let s2 := replacePure matchProp (propCb componentData) s1
  let s3 := replacePure matchClick (fun _ => []) s2
  let s4 := replacePure matchNgIf ngIfCb s3
  let s5 := replacePure matchNgFor (fun _ => []) s4
  let s6 := replacePure matchMouseEnter (fun _ => []) s5
  let s7 := replacePure matchMouseLeave (fun _ => []) s6
  let s8 := replacePure matchRouterLink routerLinkCb s7
  let s9 := replacePure matchRouterLinkB (routerLinkBCb componentData) s8
  let s10 := replacePure matchRouterLinkActive (fun _ => []) s9
  String.mk s10

/-- Does the rewriter raise? The only throwing statement in the source is the
`new RegExp` construction inside the class-binding branch, reached once per
context key whenever a class binding whose value holds a quote is processed;
it throws iff some key does not compile as a word-boundary pattern. -/
def convertRaises (template : String) (componentData : Ctx) (year : Nat) : Bool :=
  let s1 := replacePure matchInterp (interpCb componentData year) template.data
  scanHasR matchProp
    (fun pv => String.mk pv.1 == "class" &&
      (pv.2.contains squoteChar || pv.2.contains '"'))
    s1
    && componentData.any (fun kv => !validRegexKey kv.1)

/-! The recursive inliner `processReusableComponents`. -/

/-- Insertion-ordered association list with JS plain-object write semantics. -/
def assocSet (m : List (String × ν)) (k : String) (v : ν) : List (String × ν) :=
  if m.any (fun kv => kv.1 == k) then m.map (fun kv => if kv.1 == k then (k, v) else kv)
  else m ++ [(k, v)]

def assocGet (m : List (String × ν)) (k : String) : Option ν :=
  (m.find? (fun kv => kv.1 == k)).map (fun kv => kv.2)

/-- JS non-global `String.replace` with a plain needle: first occurrence only. -/
def replaceFirstChars (needle repl : List Char) : List Char → List Char
  | [] => []
  | c :: cs =>
    if startsWithChars needle (c :: cs) then repl ++ (c :: cs).drop needle.length
    else c :: replaceFirstChars needle repl cs

/-- One component record of the metadata list (absent JS fields are `none`). -/
structure ComponentMeta where
  id_name : Option String := none
  selector : Option String := none
  name : Option String := none
  scss_code : Option String := none
  ts_code : Option String := none
  html_code : Option String := none

/-- JS truthiness filter on an optional string (the empty string is falsy). -/
def optTruthy : Option String → Option String
  | some s => if s == "" then none else some s
  | none => none

/-- Selector derivation `comp.id_name || comp.selector ||
comp.name?.toLowerCase().replace("component", "")`. -/
def derivedSelector (c : ComponentMeta) : Option String :=
  match optTruthy c.id_name with
  | some s => some s
  | none =>
    match optTruthy c.selector with
    | some s => some s
    | none =>
      match c.name with
      | some n => optTruthy (some (String.mk (replaceFirstChars "component".data [] n.toLower.data)))
      | none => none

def buildComponentMap (meta : List ComponentMeta) : List (String × ComponentMeta) :=
  meta.foldl (fun m c =>
    match derivedSelector c with
    | some sel => assocSet m sel c
    | none => m) []

/-! The logic neutralizer: the regex chain applied to `ts_code`. -/

def matchQuoteChar (c : Char) : Bool := c == squoteChar || c == '"'

def isLineBreak (c : Char) : Bool := c == '\n' || c == '\r'

/-- Tail of the statement-removal pattern from `from` on:
`from\s+['"].*?['"];?\s*` with the lazy dot not crossing line breaks. -/
def importTail (s : List Char) : Option Nat :=
  match dropLit "from".data s with
  | some r =>
    let ws := r.takeWhile isSpaceChar
    if ws.isEmpty then none
    else match r.dropWhile isSpaceChar with
      | q1 :: r2 =>
        if matchQuoteChar q1 then
          let mid := r2.takeWhile (fun c => !matchQuoteChar c)
          if mid.any isLineBreak then none
          else match r2.dropWhile (fun c => !matchQuoteChar c) with
            | _ :: r3 =>
              let semiR : Nat × List Char := match r3 with
                | ';' :: t => (1, t)
                | t => (0, t)
              some (4 + ws.length + 1 + mid.length + 1 + semiR.1 +
                    (semiR.2.takeWhile isSpaceChar).length)
            | [] => none
        else none
      | [] => none
  | none => none

/-- Earliest position (the lazy `.*?`) at which the tail matches, with no line
break skipped over. -/
def importSearchFrom : List Char → Option (Nat × Nat)
  | [] =>
    match importTail [] with
    | some t => some (0, t)
    | none => none
  | c :: rest =>
    match importTail (c :: rest) with
    | some t => some (0, t)
    | none =>
      if isLineBreak c then none
      else match importSearchFrom rest with
        | some pt => some (pt.1 + 1, pt.2)
        | none => none

/-- `/import\s+.*?from\s+['"].*?['"];?\s*/g` on a statement head. -/
def matchImportStmt (s : List Char) : Option (Unit × Nat) :=
  match dropLit "import".data s with
  | some r =>
    let ws := r.takeWhile isSpaceChar
    if ws.isEmpty then none
    else match importSearchFrom (r.dropWhile isSpaceChar) with
      | some pt => some ((), 6 + ws.length + pt.1 + pt.2)
      | none => none
  | none => none

/-- `/@Component\s*\(\s*\{[^}]*\}\s*\)/g`. -/
def matchComponentDecor (s : List Char) : Option (Unit × Nat) :=
  match dropLit "@Component".data s with
  | some r =>
    let ws1 := r.takeWhile isSpaceChar
    match r.dropWhile isSpaceChar with
    | '(' :: r2 =>
      let ws2 := r2.takeWhile isSpaceChar
      match r2.dropWhile isSpaceChar with
      | '{' :: r3 =>
        let body := r3.takeWhile (fun c => c != '}')
        match r3.dropWhile (fun c => c != '}') with
        | '}' :: r4 =>
          let ws3 := r4.takeWhile isSpaceChar
          match r4.dropWhile isSpaceChar with
          | ')' :: _ =>
            some ((), 10 + ws1.length + 1 + ws2.length + 1 + body.length + 1 + ws3.length + 1)
          | _ => none
        | _ => none
      | _ => none
    | _ => none
  | none => none

/-- `/export\s+class\s+(\w+)/g`, capturing the class name. -/
def matchExportClass (s : List Char) : Option (List Char × Nat) :=
  match dropLit "export".data s with
  | some r =>
    let ws1 := r.takeWhile isSpaceChar
    if ws1.isEmpty then none
    else match dropLit "class".data (r.dropWhile isSpaceChar) with
      | some r2 =>
        let ws2 := r2.takeWhile isSpaceChar
        if ws2.isEmpty then none
        else
          let w := (r2.dropWhile isSpaceChar).takeWhile isWordChar
          if w.isEmpty then none
          else some (w, 6 + ws1.length + 5 + ws2.length + w.length)
      | none => none
  | none => none

def hasExportClass (ts : String) : Bool := scanHas matchExportClass ts.data

/-- `/:\s*\w+(\[\])?(\s*\|\s*\w+)?/g`. -/
def matchTypeAnn (s : List Char) : Option (Unit × Nat) :=
  match s with
  | ':' :: r =>
    let ws := r.takeWhile isSpaceChar
    let r1 := r.dropWhile isSpaceChar
    let w := r1.takeWhile isWordChar
    if w.isEmpty then none
    else
      let r2 := r1.dropWhile isWordChar
      let arrR : Nat × List Char := match r2 with
        | '[' :: ']' :: t => (2, t)
        | t => (0, t)
      let unionLen : Nat :=
        let ws2 := arrR.2.takeWhile isSpaceChar
        match arrR.2.dropWhile isSpaceChar with
        | '|' :: r4 =>
          let ws3 := r4.takeWhile isSpaceChar
          let w2 := (r4.dropWhile isSpaceChar).takeWhile isWordChar
          if w2.isEmpty then 0 else ws2.length + 1 + ws3.length + w2.length
        | _ => 0
      some ((), 1 + ws.length + w.length + arrR.1 + unionLen)
  | _ => none

/-- `/:\s*void/g`. -/
def matchVoidAnn (s : List Char) : Option (Unit × Nat) :=
  match s with
  | ':' :: r =>
    let ws := r.takeWhile isSpaceChar
    match dropLit "void".data (r.dropWhile isSpaceChar) with
    | some _ => some ((), 1 + ws.length + 4)
    | none => none
  | _ => none

/-- Fixed-text pattern. -/
def matchLit (lit : List Char) (s : List Char) : Option (Unit × Nat) :=
  match dropLit lit s with
  | some _ => some ((), lit.length)
  | none => none

/-- `/implements\s+\w+/g`. -/
def matchImplementsClause (s : List Char) : Option (Unit × Nat) :=
  match dropLit "implements".data s with
  | some r =>
    let ws := r.takeWhile isSpaceChar
    if ws.isEmpty then none
    else
      let w := (r.dropWhile isSpaceChar).takeWhile isWordChar
      if w.isEmpty then none else some ((), 10 + ws.length + w.length)
  | none => none

/-- The neutralization chain applied to a component's logic source, in
source order. -/
def neutralizeTsCode (ts : String) : String :=
  let a := replacePure matchImportStmt (fun _ => []) ts.data
  let b := replacePure matchComponentDecor (fun _ => []) a
  let c := replacePure matchExportClass (fun w => "class ".data ++ w) b
  let d := replacePure matchTypeAnn (fun _ => []) c
  let e := replacePure matchVoidAnn (fun _ => []) d
  let f := replacePure (matchLit "@Input()".data) (fun _ => []) e
  let g := replacePure (matchLit "@Output()".data) (fun _ => []) f
  let h := replacePure (matchLit "EventEmitter".data) (fun _ => []) g
  let i := replacePure matchImplementsClause (fun _ => []) h
  String.mk i

/-! Declared inputs, template interpolation names, and the content heuristic. -/

/-- `/@Input\(\)\s+(\w+):/g`. -/
def matchInputDecl (s : List Char) : Option (String × Nat) :=
  match dropLit "@Input()".data s with
  | some r =>
    let ws := r.takeWhile isSpaceChar
    if ws.isEmpty then none
    else
      let w := (r.dropWhile isSpaceChar).takeWhile isWordChar
      if w.isEmpty then none
      else match ((r.dropWhile isSpaceChar).dropWhile isWordChar) with
        | ':' :: _ => some (String.mk w, 8 + ws.length + w.length + 1)
        | _ => none
  | none => none

def extractInputs (ts : String) : List String := scanCollect matchInputDecl ts.data

/-- `/\{\{\s*(\w+)\s*\}\}/g`. -/
def matchInterpName (s : List Char) : Option (String × Nat) :=
  match s with
  | '{' :: '{' :: r =>
    let ws1 := r.takeWhile isSpaceChar
    let r1 := r.dropWhile isSpaceChar
    let w := r1.takeWhile isWordChar
    if w.isEmpty then none
    else
      let r2 := r1.dropWhile isWordChar
      let ws2 := r2.takeWhile isSpaceChar
      match r2.dropWhile isSpaceChar with
      | '}' :: '}' :: _ => some (String.mk w, 2 + ws1.length + w.length + ws2.length + 2)
      | _ => none
  | _ => none

def extractInterpolations (h : String) : List String := scanCollect matchInterpName h.data

def contentPropertyNames : List String := ["label", "text", "content", "title", "value", "name"]

/-- The code's choice of the field receiving plain inner text: conventional
names referenced in the template, then any referenced input, then the first
input, run only when the logic source is truthy, declares inputs, and the
template text is truthy; the fallback is the fixed name "label". -/
def chooseInputProperty (tsOpt htmlOpt : Option String) : String :=
  (match optTruthy tsOpt with
   | none => none
   | some ts =>
     let inputs := extractInputs ts
     match optTruthy htmlOpt with
     | some h =>
       if inputs.isEmpty then none
       else
         let interps := extractInterpolations h
         ((contentPropertyNames.find? fun p => inputs.contains p && interps.contains p) <|>
          (inputs.find? fun i => interps.contains i) <|>
          inputs.head?)
     | none => none).getD "label"

/-- Content-to-input heuristic as the specification words it: tier by tier
over the declared inputs and the interpolated names, with no condition on the
template text being nonempty. -/
def specContentField (inputs interps : List String) : String :=
  ((contentPropertyNames.find? fun p => inputs.contains p && interps.contains p) <|>
   (inputs.find? fun i => interps.contains i) <|>
   inputs.head?).getD "label"

/-! Attribute parsing of one instantiating tag. -/

/-- `propValue.replace(/^['"]|['"]$/g, "")`. -/
def stripEdgeQuotes (v : List Char) : List Char :=
  let v1 := match v with
    | c :: t => if matchQuoteChar c then t else c :: t
    | [] => []
  match v1.getLast? with
  | some c => if matchQuoteChar c then v1.dropLast else v1
  | none => v1

/-- `/\[(\w+)\]="([^"]+)"/g` on the attribute text, with the edge quotes of
the bound value stripped. -/
def matchPropW (s : List Char) : Option ((String × String) × Nat) :=
  match s with
  | '[' :: r =>
    let p := r.takeWhile isWordChar
    if p.isEmpty then none
    else match r.dropWhile isWordChar with
      | ']' :: '=' :: '"' :: r2 =>
        let v := r2.takeWhile (fun c => c != '"')
        if v.isEmpty then none
        else match r2.dropWhile (fun c => c != '"') with
          | '"' :: _ =>
            some ((String.mk p, String.mk (stripEdgeQuotes v)), p.length + v.length + 5)
          | _ => none
      | _ => none
  | _ => none

/-- `/(\w+)(?:=["']([^"']*)["'])?/g`: a quoted value if the optional group
matches, else a bare boolean attribute. -/
def matchPlainAttr (s : List Char) : Option ((String × JSValue) × Nat) :=
  let w := s.takeWhile isWordChar
  if w.isEmpty then none
  else
    let r := s.dropWhile isWordChar
    match r with
    | '=' :: q :: r2 =>
      if matchQuoteChar q then
        let v := r2.takeWhile (fun c => !matchQuoteChar c)
        match r2.dropWhile (fun c => !matchQuoteChar c) with
        | _ :: _ => some ((String.mk w, .str (String.mk v)), w.length + 2 + v.length + 1)
        | [] => some ((String.mk w, .bool true), w.length)
      else some ((String.mk w, .bool true), w.length)
    | _ => some ((String.mk w, .bool true), w.length)

/-- Property bindings, assigned in match order (plain JS assignment). -/
def parseAttrsPhase1 (attributes : String) : Ctx :=
  (scanCollect matchPropW attributes.data).foldl
    (fun m kv => jsObjSet m kv.1 (.str kv.2)) []

/-- Then plain/bare attributes, assigned only when the key is not yet set. -/
def parseAttrsCtx (attributes : String) : Ctx :=
  (scanCollect matchPlainAttr attributes.data).foldl
    (fun m kv => if hasKey m kv.1 then m else jsObjSet m kv.1 kv.2)
    (parseAttrsPhase1 attributes)

/-! Custom-tag matchers: `\w+(-\w+)+` names, with the backreference of the
paired patterns tried against each hyphen-aligned prefix of the name run,
longest first, exactly as the regex engine backtracks `(-\w+)+`. -/

/-- Collect the `(-\w+)*` segments after the leading word run. -/
def grabMoreSegsAux : Nat → List Char → List (List Char) × List Char
  | 0, s => ([], s)
  | fuel + 1, s =>
    match s with
    | '-' :: rest =>
      let w := rest.takeWhile isWordChar
      if w.isEmpty then ([], s)
      else
        let sr := grabMoreSegsAux fuel (rest.dropWhile isWordChar)
        (w :: sr.1, sr.2)
    | _ => ([], s)

def grabMoreSegs (s : List Char) : List (List Char) × List Char :=
  grabMoreSegsAux s.length s

def joinTail : List (List Char) → List Char
  | [] => []
  | w :: rest => '-' :: (w ++ joinTail rest)

structure TagCap where
  sel : List Char
  attrs : List Char
  inner : Option (List Char)

/-- Leading `<` and the hyphenated name run (at least two segments). -/
def matchTagOpen (s : List Char) : Option (List Char × List (List Char) × List Char) :=
  match s with
  | '<' :: t =>
    let w := t.takeWhile isWordChar
    if w.isEmpty then none
    else
      let sr := grabMoreSegs (t.dropWhile isWordChar)
      if sr.1.isEmpty then none else some (w, sr.1, sr.2)
  | _ => none

/-- `/<(\w+(-\w+)+)([^>]*)\s*\/>/g`: the non-`>` run must end in `/`. -/
def matchSelfClose (s : List Char) : Option (TagCap × Nat) :=
  match matchTagOpen s with
  | some wsr =>
    let name := wsr.1 ++ joinTail wsr.2.1
    let run := wsr.2.2.takeWhile (fun c => c != '>')
    match wsr.2.2.dropWhile (fun c => c != '>') with
    | '>' :: _ =>
      match run.getLast? with
      | some '/' =>
        some ({ sel := name, attrs := run.dropLast, inner := none },
              1 + name.length + run.length + 1)
      | _ => none
    | _ => none
  | none => none

/-- One backreference candidate of `/<NAME([^>]*)>([^<]*)<\/NAME>/`. -/
def tryPairedAt (name leftover : List Char) : Option (TagCap × Nat) :=
  let attrs := leftover.takeWhile (fun c => c != '>')
  match leftover.dropWhile (fun c => c != '>') with
  | '>' :: r2 =>
    let inner := r2.takeWhile (fun c => c != '<')
    match dropLit ('<' :: '/' :: (name ++ ['>'])) (r2.dropWhile (fun c => c != '<')) with
    | some _ =>
      some ({ sel := name, attrs := attrs, inner := some inner },
            1 + name.length + attrs.length + 1 + inner.length + 2 + name.length + 1)
    | none => none
  | _ => none

/-- One backreference candidate of `/<NAME([^>]*)><\/NAME>/`. -/
def tryEmptyAt (name leftover : List Char) : Option (TagCap × Nat) :=
  let attrs := leftover.takeWhile (fun c => c != '>')
  match leftover.dropWhile (fun c => c != '>') with
  | '>' :: r2 =>
    match dropLit ('<' :: '/' :: (name ++ ['>'])) r2 with
    | some _ =>
      some ({ sel := name, attrs := attrs, inner := none },
            1 + name.length + attrs.length + 1 + 2 + name.length + 1)
    | none => none
  | _ => none

def downFrom : Nat → List Nat
  | 0 => []
  | n + 1 => (n + 1) :: downFrom n

/-- Try the name candidates (numbers of tail segments kept), longest first. -/
def tryCands (w : List Char) (segs : List (List Char)) (r : List Char)
    (tryAt : List Char → List Char → Option (TagCap × Nat)) :
    List Nat → Option (TagCap × Nat)
  | [] => none
  | k :: ks =>
    match tryAt (w ++ joinTail (segs.take k)) (joinTail (segs.drop k) ++ r) with
    | some res => some res
    | none => tryCands w segs r tryAt ks

def matchPaired (s : List Char) : Option (TagCap × Nat) :=
  match matchTagOpen s with
  | some wsr => tryCands wsr.1 wsr.2.1 wsr.2.2 tryPairedAt (downFrom wsr.2.1.length)
  | none => none

def matchEmptyPair (s : List Char) : Option (TagCap × Nat) :=
  match matchTagOpen s with
  | some wsr => tryCands wsr.1 wsr.2.1 wsr.2.2 tryEmptyAt (downFrom wsr.2.1.length)
  | none => none

/-- `/<[^>]+>/` as a containment test on inner content. -/
def matchTagLike (s : List Char) : Option (Unit × Nat) :=
  match s with
  | '<' :: r =>
    let run := r.takeWhile (fun c => c != '>')
    if run.isEmpty then none
    else match r.dropWhile (fun c => c != '>') with
      | '>' :: _ => some ((), run.length + 2)
      | _ => none
  | _ => none

def hasTagLike (s : String) : Bool := scanHas matchTagLike s.data

/-! Expansion state, the per-instance processing, the passes and the loop. -/

structure InlineState where
  processed : List String
  styles : String
  scripts : String

def initState : InlineState := { processed := [], styles := "", scripts := "" }

def styleBlock (sel : String) (c : ComponentMeta) : String :=
  match optTruthy c.scss_code with
  | some scss => "\n/* Styles for " ++ sel ++ " */\n" ++ scss ++ "\n"
  | none => ""

def scriptBlock (sel : String) (c : ComponentMeta) : String :=
  match optTruthy c.ts_code with
  | some ts =>
    if hasExportClass ts then
      "\n/* Script for " ++ sel ++ " */\n" ++ neutralizeTsCode ts ++ "\n"
    else ""
  | none => ""

def styleBlockOf (map : List (String × ComponentMeta)) (sel : String) : String :=
  match assocGet map sel with
  | some c => styleBlock sel c
  | none => ""

def scriptBlockOf (map : List (String × ComponentMeta)) (sel : String) : String :=
  match assocGet map sel with
  | some c => scriptBlock sel c
  | none => ""

/-- State effect of one `processComponent` call: on the first encounter of a
registered selector, record it and append its style and script blocks. -/
def processComponentSt (map : List (String × ComponentMeta)) (sel : String)
    (st : InlineState) : InlineState :=
  match assocGet map sel with
  | none => st
  | some c =>
    if st.processed.contains sel then st
    else { processed := st.processed ++ [sel],
           styles := st.styles ++ styleBlock sel c,
           scripts := st.scripts ++ scriptBlock sel c }

/-- Mapping of plain inner text onto the chosen input field. -/
def applyInnerHeuristic (c : ComponentMeta) (ctx : Ctx) (inner : Option String) : Ctx :=
  match inner with
  | none => ctx
  | some ic =>
    if ic != "" && trimS ic != "" && !hasTagLike ic then
      jsObjSet ctx (chooseInputProperty c.ts_code c.html_code) (.str (trimS ic))
    else ctx

/-- Replacement text of one `processComponent` call (independent of the
expansion state): `none` for an unregistered selector, else the component's
own template rewritten against the instance context. -/
def processComponentRepl (map : List (String × ComponentMeta)) (year : Nat)
    (sel attrs : String) (inner : Option String) : Option String :=
  match assocGet map sel with
  | none => none
  | some c =>
    let ctx := applyInnerHeuristic c (parseAttrsCtx attrs) inner
    some (convertAngularTemplateToHTML (c.html_code.getD "") ctx year)

/-- Stateful global replacement pass: a `none` callback result leaves the
matched span verbatim (the JS callback returning `match`). -/
def replaceStAux (m : List Char → Option (α × Nat))
    (f : α → InlineState → Option (List Char) × InlineState) :
    Nat → List Char → InlineState → List Char × InlineState
  | _, [], st => ([], st)
  | 0, s, st => (s, st)
  | fuel + 1, c :: cs, st =>
    match m (c :: cs) with
    | some (a, n) =>
      let fr := f a st
      let tl := replaceStAux m f fuel (cs.drop (n - 1)) fr.2
      ((match fr.1 with
        | some t => t
        | none => (c :: cs).take n) ++ tl.1, tl.2)
    | none =>
      let tl := replaceStAux m f fuel cs st
      (c :: tl.1, tl.2)

def replaceSt (m : List Char → Option (α × Nat))
    (f : α → InlineState → Option (List Char) × InlineState)
    (s : List Char) (st : InlineState) : List Char × InlineState :=
  replaceStAux m f s.length s st

/-- Callback of the self-closing and empty-pair passes (inner passed as null). -/
def tagCbNoInner (map : List (String × ComponentMeta)) (year : Nat) (cap : TagCap)
    (st : InlineState) : Option (List Char) × InlineState :=
  ((processComponentRepl map year (String.mk cap.sel) (String.mk cap.attrs) none).map
     String.data,
   processComponentSt map (String.mk cap.sel) st)

/-- Callback of the paired-tag pass, with the guard re-testing the inner
content for nested tags. -/
def pairedCb (map : List (String × ComponentMeta)) (year : Nat) (cap : TagCap)
    (st : InlineState) : Option (List Char) × InlineState :=
  let innerS := String.mk (cap.inner.getD [])
  (if !hasTagLike innerS then
    (processComponentRepl map year (String.mk cap.sel) (String.mk cap.attrs)
      (some innerS)).map String.data
   else none,
   if !hasTagLike innerS then processComponentSt map (String.mk cap.sel) st else st)

def selfClosePass (map : List (String × ComponentMeta)) (year : Nat) (s : String)
    (st : InlineState) : String × InlineState :=
  let r := replaceSt matchSelfClose (tagCbNoInner map year) s.data st
  (String.mk r.1, r.2)

def pairedPass (map : List (String × ComponentMeta)) (year : Nat) (s : String)
    (st : InlineState) : String × InlineState :=
  let r := replaceSt matchPaired (pairedCb map year) s.data st
  (String.mk r.1, r.2)

def emptyPairPass (map : List (String × ComponentMeta)) (year : Nat) (s : String)
    (st : InlineState) : String × InlineState :=
  let r := replaceSt matchEmptyPair (tagCbNoInner map year) s.data st
  (String.mk r.1, r.2)

/-- One iteration of the while loop: the paired-tag pass then the empty-pair
pass. -/
def inlinerPass (map : List (String × ComponentMeta)) (year : Nat) (s : String)
    (st : InlineState) : String × InlineState :=
  let r1 := pairedPass map year s st
  emptyPairPass map year r1.1 r1.2

/-- Markup effect of one loop iteration (the emitted text of the passes does
not depend on the expansion state). -/
def inlinerPassH (map : List (String × ComponentMeta)) (year : Nat) (s : String) : String :=
  (inlinerPass map year s initState).1

/-- The bounded fixed-point loop, counting the executed passes:
`while (processedHtml !== lastProcessedHtml && iterations < maxIterations)`. -/
def loopAux (map : List (String × ComponentMeta)) (year : Nat) :
    Nat → String → String → InlineState → String × InlineState × Nat
  | 0, _, cur, st => (cur, st, 0)
  | fuel + 1, last, cur, st =>
    if cur = last then (cur, st, 0)
    else
      let p := inlinerPass map year cur st
      let r := loopAux map year fuel cur p.1 p.2
      (r.1, r.2.1, r.2.2 + 1)

structure InlineResult where
  html : String
  componentStyles : String
  componentScripts : String

/-- The whole inliner run, also exposing the final expansion state and the
number of executed loop passes. -/
def inlinerRun (year : Nat) (html : String) (meta : List ComponentMeta) :
    String × InlineState × Nat :=
  if meta.isEmpty then (html, initState, 0)
  else
    let map := buildComponentMap meta
    let s1 := selfClosePass map year html initState
    loopAux map year 20 "" s1.1 s1.2

def processReusableComponents (year : Nat) (html : String) (meta : List ComponentMeta) :
    InlineResult :=
  let r := inlinerRun year html meta
  { html := r.1, componentStyles := r.2.1.styles, componentScripts := r.2.1.scripts }

def inlinerPassCount (year : Nat) (html : String) (meta : List ComponentMeta) : Nat :=
  (inlinerRun year html meta).2.2

def inlinerProcessed (year : Nat) (html : String) (meta : List ComponentMeta) : List String :=
  (inlinerRun year html meta).2.1.processed

/-- Markup after the initial self-closing pass. -/
def inlinerStart (year : Nat) (html : String) (meta : List ComponentMeta) : String :=
  (selfClosePass (buildComponentMap meta) year html initState).1

/-- Markup after `n` loop passes over `inlinerStart`. -/
def inlinerSeq (year : Nat) (html : String) (meta : List ComponentMeta) (n : Nat) : String :=
  (inlinerPassH (buildComponentMap meta) year)^[n] (inlinerStart year html meta)

/-- Concatenation of one block per recorded selector, in order. -/
def blocksConcat (f : String → String) : List String → String
  | [] => ""
  | sel :: rest => f sel ++ blocksConcat f rest

/-- Coherence of an expansion state: the style and script accumulators hold
exactly one block per recorded selector, in first-encounter order, and no
selector is recorded twice. -/
def stateCoherent (map : List (String × ComponentMeta)) (st : InlineState) : Prop :=
  st.styles = blocksConcat (styleBlockOf map) st.processed ∧
  st.scripts = blocksConcat (scriptBlockOf map) st.processed ∧
  st.processed.Nodup

/-! Syntax-presence predicates used to state the rewriter claims: each asks
whether the corresponding pattern matches anywhere in the markup. -/

/-- Generic event-binding shape `(eventName)="handler"` for any event name. -/
def matchEventAny (s : List Char) : Option (Unit × Nat) :=
  match s with
  | '(' :: r =>
    let w := r.takeWhile isWordChar
    if w.isEmpty then none
    else match dropLit ")=\"".data (r.dropWhile isWordChar) with
      | some r2 =>
        let v := r2.takeWhile (fun c => c != '"')
        if v.isEmpty then none
        else match r2.dropWhile (fun c => c != '"') with
          | '"' :: _ => some ((), w.length + v.length + 5)
          | _ => none
      | none => none
  | _ => none

def hasInterpolation (s : String) : Bool := scanHas matchInterp s.data

def hasPropBinding (s : String) : Bool := scanHas matchProp s.data

def hasEventBinding (s : String) : Bool := scanHas matchEventAny s.data

def hasNgIfAttr (s : String) : Bool := scanHas matchNgIf s.data

def hasNgForAttr (s : String) : Bool := scanHas matchNgFor s.data

def hasRouterLinkAttr (s : String) : Bool :=
  scanHas matchRouterLink s.data || scanHas matchRouterLinkB s.data ||
  scanHas matchRouterLinkActive s.data

/-! Concrete component records used by the claim instances. -/

def exButtonMeta : ComponentMeta := { id_name := some "app-button", scss_code := some "btn-style", html_code := some "<button>{{label}}</button>" }

def exOuterMeta : ComponentMeta := { id_name := some "out-w", html_code := some "<in-w /> t " }

def exInnerMeta : ComponentMeta := { id_name := some "in-w", html_code := some "IN" }

def exOuterConsuming : ComponentMeta := { id_name := some "out-w", html_code := some "<in-w /> hi </in-w>" }

def exCycleMeta : ComponentMeta := { id_name := some "a-b", html_code := some "x<a-b></a-b>" }

/-! Basic lemmas about the scanners. -/

theorem dropLit_spec : ∀ (lit s r : List Char), dropLit lit s = some r → s = lit ++ r := by
  intro lit
  induction lit with
  | nil =>
    intro s r h
    simp only [dropLit, Option.some.injEq] at h
    simp [h]
  | cons c cs ih =>
    intro s r h
    cases s with
    | nil => simp [dropLit] at h
    | cons d ds =>
      simp only [dropLit] at h
      split at h
      · next hdc =>
        have hd : d = c := by simpa using hdc
        subst hd
        simpa using ih ds r h
      · exact absurd h (by simp)

theorem scanHas_mono (m1 : List Char → Option (α × Nat)) (m2 : List Char → Option (β × Nat))
    (himp : ∀ u, (m1 u).isSome = true → (m2 u).isSome = true) :
    ∀ s, scanHas m1 s = true → scanHas m2 s = true := by
  intro s
  induction s with
  | nil => intro h; simp [scanHas] at h
  | cons c cs ih =>
    intro h
    simp only [scanHas, Bool.or_eq_true] at h ⊢
    rcases h with h | h
    · exact Or.inl (himp _ h)
    · exact Or.inr (ih h)

theorem replacePureAux_no_match (m : List Char → Option (α × Nat)) (f : α → List Char) :
    ∀ fuel s, scanHas m s = false → replacePureAux m f fuel s = s := by
  intro fuel
  induction fuel with
  | zero => intro s _; cases s <;> simp [replacePureAux]
  | succ n ih =>
    intro s h
    cases s with
    | nil => simp [replacePureAux]
    | cons c cs =>
      simp only [scanHas, Bool.or_eq_false_iff] at h
      have hm : m (c :: cs) = none := by
        cases hq : m (c :: cs)
        · rfl
        · rw [hq] at h; simp at h
      simp only [replacePureAux]
      rw [hm]
      simp [ih cs h.2]

theorem replacePure_no_match (m : List Char → Option (α × Nat)) (f : α → List Char)
    (s : List Char) (h : scanHas m s = false) : replacePure m f s = s :=
  replacePureAux_no_match m f s.length s h

theorem mem_takeWhile_sat (p : Char → Bool) :
    ∀ (l : List Char) (c : Char), c ∈ l.takeWhile p → p c = true := by
  intro l
  induction l with
  | nil => intro c hc; simp [List.takeWhile] at hc
  | cons a t ih =>
    intro c hc
    rw [List.takeWhile_cons] at hc
    by_cases ha : p a
    · rw [if_pos ha] at hc
      rcases List.mem_cons.mp hc with h | h
      · rw [h]; exact ha
      · exact ih c h
    · rw [if_neg ha] at hc; simp at hc

theorem takeWhile_append_cons (p : Char → Bool) (v : List Char) (q : Char) (r : List Char)
    (hv : ∀ c ∈ v, p c = true) (hq : p q = false) :
    (v ++ q :: r).takeWhile p = v ∧ (v ++ q :: r).dropWhile p = q :: r := by
  induction v with
  | nil => simp [List.takeWhile_cons, List.dropWhile_cons, hq]
  | cons a t ih =>
    have ha : p a = true := hv a (by simp)
    have iht := ih (fun c hc => hv c (by simp [hc]))
    simp [List.takeWhile_cons, List.dropWhile_cons, ha, iht.1, iht.2]

/-- The generic event-binding matcher succeeds on the explicit shape
`(w)="v"` with `w` a nonempty word run and `v` a nonempty quote-free run. -/
theorem matchEventAny_pos (w v rest : List Char) (hw : w.isEmpty = false)
    (hall : ∀ c ∈ w, isWordChar c = true) (hv : v.isEmpty = false)
    (hvq : ∀ c ∈ v, (c != '"') = true) :
    (matchEventAny ('(' :: (w ++ (')' :: '=' :: '"' :: (v ++ '"' :: rest))))).isSome = true := by
  have h1 : (w ++ (')' :: '=' :: '"' :: (v ++ '"' :: rest))).takeWhile isWordChar = w :=
    (takeWhile_append_cons _ _ _ _ hall (by decide)).1
  have h2 : (w ++ (')' :: '=' :: '"' :: (v ++ '"' :: rest))).dropWhile isWordChar =
      ')' :: '=' :: '"' :: (v ++ '"' :: rest) :=
    (takeWhile_append_cons _ _ _ _ hall (by decide)).2
  have h3 : (v ++ '"' :: rest).takeWhile (fun c => c != '"') = v :=
    (takeWhile_append_cons _ _ _ _ hvq (by decide)).1
  have h4 : (v ++ '"' :: rest).dropWhile (fun c => c != '"') = '"' :: rest :=
    (takeWhile_append_cons _ _ _ _ hvq (by decide)).2
  have h5 : dropLit ")=\"".data (')' :: '=' :: '"' :: (v ++ '"' :: rest)) =
      some (v ++ '"' :: rest) := rfl
  simp only [matchEventAny, h1, h2, h5, hw, hv, h3, h4]
  simp

/-- Any specific-event matcher success is a generic event-binding success
(used to transport the no-event-binding hypothesis to the three passes). -/
theorem litQuoted_imp_event (w : List Char) (hw : w.isEmpty = false)
    (hall : ∀ c ∈ w, isWordChar c = true) (u : List Char)
    (h : (matchLitQuoted ('(' :: (w ++ ")=\"".data)) u).isSome = true) :
    (matchEventAny u).isSome = true := by
  unfold matchLitQuoted at h
  cases hd : dropLit ('(' :: (w ++ ")=\"".data)) u with
  | none => rw [hd] at h; simp at h
  | some r =>
    rw [hd] at h
    dsimp only at h
    by_cases hv : (r.takeWhile (fun c => c != '"')).isEmpty
    · rw [if_pos hv] at h; simp at h
    · rw [if_neg hv] at h
      cases hw2 : r.dropWhile (fun c => c != '"') with
      | nil => rw [hw2] at h; simp at h
      | cons q rest =>
        rw [hw2] at h
        have hq : q = '"' := by
          by_contra hne
          have hred : (match q :: rest with
              | '"' :: _ => some (r.takeWhile (fun c => c != '"'),
                  ('(' :: (w ++ ")=\"".data)).length +
                  (r.takeWhile (fun c => c != '"')).length + 1)
              | _ => (none : Option (List Char × Nat))) = none := by
            split
            · next heq => exact absurd (List.cons.inj heq).1 hne
            · rfl
          rw [hred] at h
          simp at h
        subst hq
        have hr : r = r.takeWhile (fun c => c != '"') ++ '"' :: rest := by
          rw [← hw2]
          exact (List.takeWhile_append_dropWhile _ _).symm
        have hu : u = '(' :: (w ++ (')' :: '=' :: '"' ::
            (r.takeWhile (fun c => c != '"') ++ '"' :: rest))) := by
          have h0 := dropLit_spec _ _ _ hd
          rw [h0, ← hr]
          simp [List.append_assoc]
        rw [hu]
        exact matchEventAny_pos _ _ _ hw hall
          (by simpa using hv)
          (fun c hc => mem_takeWhile_sat (fun c => c != '"') r c hc)

/-- C9: the template rewriter returns unchanged any markup containing no
interpolation, no property binding, no event binding, no structural
directive, and no router-link attribute, for every binding context and
every clock year. -/
theorem c9_rewriter_identity_on_plain_markup (s : String) (ctx : Ctx) (year : Nat)
    (h1 : hasInterpolation s = false) (h2 : hasPropBinding s = false)
    (h3 : hasEventBinding s = false) (h4 : hasNgIfAttr s = false)
    (h5 : hasNgForAttr s = false) (h6 : hasRouterLinkAttr s = false) :
    convertAngularTemplateToHTML s ctx year = s := by
  have hgen : ∀ (w : List Char), w.isEmpty = false → (∀ c ∈ w, isWordChar c = true) →
      scanHas (matchLitQuoted ('(' :: (w ++ ")=\"".data))) s.data = false := by
    intro w hw hall
    cases hc : scanHas (matchLitQuoted ('(' :: (w ++ ")=\"".data))) s.data
    · rfl
    · exfalso
      have hev := scanHas_mono _ _ (litQuoted_imp_event w hw hall) s.data hc
      rw [hasEventBinding] at h3
      rw [h3] at hev
      exact Bool.false_ne_true hev
  have hclick : scanHas matchClick s.data = false := hgen "click".data (by decide) (by decide)
  have hme : scanHas matchMouseEnter s.data = false :=
    hgen "mouseenter".data (by decide) (by decide)
  have hml : scanHas matchMouseLeave s.data = false :=
    hgen "mouseleave".data (by decide) (by decide)
  rw [hasRouterLinkAttr, Bool.or_eq_false_iff, Bool.or_eq_false_iff] at h6
  rw [hasInterpolation] at h1
  rw [hasPropBinding] at h2
  rw [hasNgIfAttr] at h4
  rw [hasNgForAttr] at h5
  simp only [convertAngularTemplateToHTML]
  rw [replacePure_no_match matchInterp (interpCb ctx year) s.data h1]
  rw [replacePure_no_match matchProp (propCb ctx) s.data h2]
  rw [replacePure_no_match matchClick (fun _ => []) s.data hclick]
  rw [replacePure_no_match matchNgIf ngIfCb s.data h4]
  rw [replacePure_no_match matchNgFor (fun _ => []) s.data h5]
  rw [replacePure_no_match matchMouseEnter (fun _ => []) s.data hme]
  rw [replacePure_no_match matchMouseLeave (fun _ => []) s.data hml]
  rw [replacePure_no_match matchRouterLink routerLinkCb s.data h6.1.1]
  rw [replacePure_no_match matchRouterLinkB (routerLinkBCb ctx) s.data h6.1.2]
  rw [replacePure_no_match matchRouterLinkActive (fun _ => []) s.data h6.2]

/-- Witness for C9 at concrete plain markup. -/
theorem c9_rewriter_identity_on_plain_markup_witness :
    convertAngularTemplateToHTML "<div>Hello</div>" [] 2023 = "<div>Hello</div>" :=
  c9_rewriter_identity_on_plain_markup "<div>Hello</div>" [] 2023 rfl rfl rfl rfl rfl rfl

/-- C6 counterexample: the rewriter does not delete an arbitrary event
binding; a `(focus)` binding is left in the output verbatim, refuting the
for-any-event-name claim. -/
theorem c6_event_binding_counterexample :
    hasEventBinding "<a (focus)=\"go()\">x</a>" = true ∧
    convertAngularTemplateToHTML "<a (focus)=\"go()\">x</a>" [] 2023 =
      "<a (focus)=\"go()\">x</a>" := by
  constructor
  · decide
  · decide

/-- C6 amended: the rewriter deletes exactly the `(click)`, `(mouseenter)`
and `(mouseleave)` event bindings, here all three on one element. -/
theorem c6_amended_named_event_bindings_removed :
    convertAngularTemplateToHTML
      "<button (click)=\"go()\" (mouseenter)=\"a()\" (mouseleave)=\"b()\">Go</button>"
      [] 2023 = "<button   >Go</button>" := by decide

/-- C7: the dedicated `new Date().getFullYear()` equality check of the source
is unreachable: the method-call heuristic intercepts any expression holding
parentheses and the text `Date`, returning the fixed sample `Oct 24, 2023`
instead of the current year; the bare `currentYear` identifier does resolve
to the clock year. -/
theorem c7_current_year_literal_bug :
    convertAngularTemplateToHTML "{{new Date().getFullYear()}}" [] 2026 = "Oct 24, 2023" ∧
    convertAngularTemplateToHTML "{{currentYear}}" [] 2026 = "2026" ∧
    ("Oct 24, 2023" : String) ≠ "2026" := by
  refine ⟨by decide, by decide, by decide⟩

/-- C2 counterexample: a binding context key that is not a valid regex
pattern makes the class-binding rule construct a throwing `new RegExp`, so
the rewriter is not total over arbitrary binding contexts. -/
theorem c2_totality_counterexample :
    convertRaises ("[class]=\"" ++ sqS ++ "btn " ++ sqS ++ " + v\"")
      [("(", JSValue.str "x")] 2023 = true := by decide

/-- C2 amended: for every binding context whose keys are nonempty
identifier-like strings (as every context the inliner itself constructs is),
the rewriter never reaches a throwing statement, on any markup. -/
theorem c2_amended_total_on_word_keys (t : String) (ctx : Ctx) (year : Nat)
    (hk : ∀ kv ∈ ctx, validRegexKey kv.1 = true) :
    convertRaises t ctx year = false := by
  unfold convertRaises
  have hany : ctx.any (fun kv => !validRegexKey kv.1) = false := by
    simp only [List.any_eq_false]
    intro kv hkv
    simp [hk kv hkv]
  rw [hany, Bool.and_false]

/-- Witness for C2 amended at a concrete class binding and context. -/
theorem c2_amended_total_on_word_keys_witness :
    convertRaises "[class]=\"a\"" [("v", JSValue.str "p")] 2023 = false :=
  c2_amended_total_on_word_keys "[class]=\"a\"" [("v", JSValue.str "p")] 2023 (by decide)

/-- A context hit survives appending entries on the right. -/
theorem ctxGet_append_left (m l : Ctx) (k : String) (v : JSValue)
    (h : ctxGet m k = some v) : ctxGet (m ++ l) k = some v := by
  induction m with
  | nil => simp [ctxGet] at h
  | cons kv rest ih =>
    simp only [ctxGet, List.find?] at h ⊢
    cases hb : kv.1 == k
    · rw [hb] at h
      simp only [List.cons_append, List.find?, hb]
      exact ih h
    · rw [hb] at h
      simp only [List.cons_append, List.find?, hb]
      exact h

/-- C8 counterexample: two property bindings for the same name on one tag;
the later-parsed one overwrites the earlier, refuting the never-overwrites
claim, and the tag's resolved context is exactly as the code computes it. -/
theorem c8_attr_overwrite_counterexample :
    parseAttrsCtx "[x]=\"a\" [x]=\"b\"" =
      [("x", JSValue.str "b"), ("a", JSValue.bool true), ("b", JSValue.bool true)] ∧
    JSValue.str "b" ≠ JSValue.str "a" := by
  refine ⟨rfl, ?_⟩
  intro h
  injection h with h2
  exact (by decide : ("b" : String) ≠ "a") h2

/-- The set-only-if-absent fold of the plain-attribute phase preserves every
existing context entry. -/
theorem foldl_setIfAbsent_preserves (l : List (String × JSValue)) :
    ∀ (m : Ctx) (k : String) (v : JSValue), ctxGet m k = some v →
    ctxGet (l.foldl (fun m kv => if hasKey m kv.1 then m else jsObjSet m kv.1 kv.2) m) k
      = some v := by
  induction l with
  | nil => intro m k v h; exact h
  | cons kv rest ih =>
    intro m k v h
    simp only [List.foldl_cons]
    apply ih
    by_cases hk : hasKey m kv.1 = true
    · rw [if_pos hk]; exact h
    · rw [if_neg hk]
      unfold jsObjSet
      rw [if_neg hk]
      exact ctxGet_append_left m _ k v h

/-- C8 amended: within the plain-attribute phase no assignment replaces a key
already set by either phase — after any prefix of the parsed plain attributes
has been folded in (the empty prefix giving exactly the property-binding
phase's output), every key/value the context holds at that point survives to
the final context, so the overwrite of the counterexample can only happen
inside the property-binding phase itself. -/
theorem c8_amended_no_overwrite_in_plain_phase (attributes k : String) (v : JSValue)
    (l1 l2 : List (String × JSValue))
    (hsplit : scanCollect matchPlainAttr attributes.data = l1 ++ l2)
    (hmid : ctxGet
      (l1.foldl (fun m kv => if hasKey m kv.1 then m else jsObjSet m kv.1 kv.2)
        (parseAttrsPhase1 attributes)) k = some v) :
    ctxGet (parseAttrsCtx attributes) k = some v := by
  unfold parseAttrsCtx
  rw [hsplit, List.foldl_append]
  exact foldl_setIfAbsent_preserves l2 _ k v hmid

/-- Witness for C8 amended, covering both ways a key can already be set: a
property binding `[t]="u"` survives a later plain `t="w"` (empty prefix), and
a bare `t` first set within the plain phase survives a later `t="w"` there
(one-element prefix). -/
theorem c8_amended_no_overwrite_in_plain_phase_witness :
    ctxGet (parseAttrsCtx "[t]=\"u\" t=\"w\"") "t" = some (JSValue.str "u") ∧
    ctxGet (parseAttrsCtx "t t=\"w\"") "t" = some (JSValue.bool true) :=
  ⟨c8_amended_no_overwrite_in_plain_phase "[t]=\"u\" t=\"w\"" "t" (JSValue.str "u")
      [] [("t", JSValue.bool true), ("u", JSValue.bool true), ("t", JSValue.str "w")] rfl rfl,
   c8_amended_no_overwrite_in_plain_phase "t t=\"w\"" "t" (JSValue.bool true)
      [("t", JSValue.bool true)] [("t", JSValue.str "w")] rfl rfl⟩

/-- C5 counterexample: a component declaring the input `foo` but holding an
empty template receives inner text under the fixed name "label", while the
spec's tier (c) dictates the first declared input `foo`. -/
theorem c5_content_heuristic_counterexample :
    chooseInputProperty (some "@Input() foo: x") (some "") = "label" ∧
    specContentField (extractInputs "@Input() foo: x") (extractInterpolations "") = "foo" ∧
    ("label" : String) ≠ "foo" := ⟨rfl, rfl, by decide⟩

/-- C5 amended: whenever the component's template text is nonempty, the code
chooses the content field exactly by the spec's tiers over the declared inputs
and the names interpolated in the template (with an absent or empty logic
source contributing no inputs); with an empty template the fixed default
"label" is used instead. -/
theorem c5_amended_content_heuristic (tsOpt : Option String) (h : String) (hh : h ≠ "") :
    chooseInputProperty tsOpt (some h) =
      specContentField (extractInputs (tsOpt.getD "")) (extractInterpolations h) := by
  have hbe : (h == "") = false := beq_eq_false_iff_ne.mpr hh
  cases tsOpt with
  | none => rfl
  | some ts =>
    by_cases hts : ts = ""
    · subst hts; rfl
    · have hbts : (ts == "") = false := beq_eq_false_iff_ne.mpr hts
      by_cases hin : (extractInputs ts).isEmpty
      · have hin' : extractInputs ts = [] := by simpa [List.isEmpty_iff] using hin
        simp only [chooseInputProperty, specContentField, optTruthy, hbts, hbe]
        simp [hin']
        decide
      · have hbin : (extractInputs ts).isEmpty = false := by
          cases hq : (extractInputs ts).isEmpty
          · rfl
          · exact absurd hq hin
        simp only [chooseInputProperty, specContentField, optTruthy, hbts, hbe]
        simp [hbin]

/-- Witness for C5 amended at the spec's own example: inputs label and icon,
template interpolating only label. -/
theorem c5_amended_content_heuristic_witness :
    chooseInputProperty (some "@Input() label: s @Input() icon: s") (some "<b>{{label}}</b>")
      = specContentField (extractInputs "@Input() label: s @Input() icon: s")
          (extractInterpolations "<b>{{label}}</b>") ∧
    chooseInputProperty (some "@Input() label: s @Input() icon: s") (some "<b>{{label}}</b>")
      = "label" :=
  ⟨c5_amended_content_heuristic (some "@Input() label: s @Input() icon: s")
      "<b>{{label}}</b>" (by decide), rfl⟩

/-! Structure of the custom-tag matchers, for the passthrough claims. -/

theorem joinTail_append (a b : List (List Char)) :
    joinTail (a ++ b) = joinTail a ++ joinTail b := by
  induction a with
  | nil => simp [joinTail]
  | cons w t ih => simp [joinTail, ih, List.append_assoc]

theorem grabMoreSegsAux_spec : ∀ (fuel : Nat) (s : List Char),
    joinTail (grabMoreSegsAux fuel s).1 ++ (grabMoreSegsAux fuel s).2 = s := by
  intro fuel
  induction fuel with
  | zero => intro s; simp [grabMoreSegsAux, joinTail]
  | succ nf ih =>
    intro s
    cases s with
    | nil => simp [grabMoreSegsAux, joinTail]
    | cons c rest =>
      by_cases hc : c = '-'
      · subst hc
        simp only [grabMoreSegsAux]
        by_cases hw : (rest.takeWhile isWordChar).isEmpty
        · rw [if_pos hw]; simp [joinTail]
        · rw [if_neg hw]
          have hrec := ih (rest.dropWhile isWordChar)
          simp only [joinTail]
          rw [List.cons_append, List.append_assoc, hrec,
            List.takeWhile_append_dropWhile]
      · simp only [grabMoreSegsAux]
        split
        · next heq => exact absurd (List.cons.inj heq).1 hc
        · simp [joinTail]

theorem matchTagOpen_spec (s : List Char) (w : List Char) (segs : List (List Char))
    (r : List Char) (h : matchTagOpen s = some (w, segs, r)) :
    s = '<' :: (w ++ (joinTail segs ++ r)) := by
  unfold matchTagOpen at h
  cases s with
  | nil => simp at h
  | cons c t =>
    split at h
    · next t1 heq =>
      by_cases hw : (t1.takeWhile isWordChar).isEmpty
      · rw [if_pos hw] at h; simp at h
      · rw [if_neg hw] at h
        by_cases hsg : (grabMoreSegs (t1.dropWhile isWordChar)).1.isEmpty
        · rw [if_pos hsg] at h; simp at h
        · rw [if_neg hsg] at h
          simp only [Option.some.injEq, Prod.mk.injEq] at h
          obtain ⟨hw1, hsegs, hr⟩ := h
          rw [heq, ← hw1, ← hsegs, ← hr]
          have hspec := grabMoreSegsAux_spec (t1.dropWhile isWordChar).length
            (t1.dropWhile isWordChar)
          rw [show grabMoreSegs (t1.dropWhile isWordChar) =
              grabMoreSegsAux (t1.dropWhile isWordChar).length (t1.dropWhile isWordChar)
            from rfl]
          rw [hspec, List.takeWhile_append_dropWhile]
    · next heq => simp at h

theorem tryPairedAt_spec (name leftover : List Char) (cap : TagCap) (n : Nat)
    (h : tryPairedAt name leftover = some (cap, n)) : cap.sel = name ∧ 1 ≤ n := by
  unfold tryPairedAt at h
  split at h
  · split at h
    · simp only [Option.some.injEq, Prod.mk.injEq] at h
      obtain ⟨h1, h2⟩ := h
      constructor
      · rw [← h1]
      · omega
    · simp at h
  · simp at h

theorem tryEmptyAt_spec (name leftover : List Char) (cap : TagCap) (n : Nat)
    (h : tryEmptyAt name leftover = some (cap, n)) : cap.sel = name ∧ 1 ≤ n := by
  unfold tryEmptyAt at h
  split at h
  · split at h
    · simp only [Option.some.injEq, Prod.mk.injEq] at h
      obtain ⟨h1, h2⟩ := h
      constructor
      · rw [← h1]
      · omega
    · simp at h
  · simp at h

theorem tryCands_inv (w : List Char) (segs : List (List Char)) (r : List Char)
    (tryAt : List Char → List Char → Option (TagCap × Nat)) :
    ∀ (ks : List Nat) (res : TagCap × Nat), tryCands w segs r tryAt ks = some res →
    ∃ k, k ∈ ks ∧
      tryAt (w ++ joinTail (segs.take k)) (joinTail (segs.drop k) ++ r) = some res := by
  intro ks
  induction ks with
  | nil => intro res h; simp [tryCands] at h
  | cons k kt ih =>
    intro res h
    simp only [tryCands] at h
    split at h
    · next res0 heq =>
      injection h with h1
      subst h1
      exact ⟨k, by simp, heq⟩
    · obtain ⟨k', hk', ht⟩ := ih res h
      exact ⟨k', by simp [hk'], ht⟩

theorem matchPaired_infix (s : List Char) (cap : TagCap) (n : Nat)
    (h : matchPaired s = some (cap, n)) : (cap.sel <:+: s) ∧ 1 ≤ n := by
  unfold matchPaired at h
  cases hto : matchTagOpen s with
  | none => rw [hto] at h; simp at h
  | some wsr =>
    rw [hto] at h
    obtain ⟨w, segs, r⟩ := wsr
    have hs := matchTagOpen_spec s w segs r hto
    obtain ⟨k, hk, ht⟩ := tryCands_inv w segs r tryPairedAt _ _ h
    obtain ⟨hsel, hn⟩ := tryPairedAt_spec _ _ _ _ ht
    refine ⟨?_, hn⟩
    rw [hsel, hs]
    refine ⟨['<'], joinTail (segs.drop k) ++ r, ?_⟩
    have hjt : joinTail segs = joinTail (segs.take k) ++ joinTail (segs.drop k) := by
      rw [← joinTail_append, List.take_append_drop]
    rw [hjt]
    simp [List.append_assoc]

theorem matchEmptyPair_infix (s : List Char) (cap : TagCap) (n : Nat)
    (h : matchEmptyPair s = some (cap, n)) : (cap.sel <:+: s) ∧ 1 ≤ n := by
  unfold matchEmptyPair at h
  cases hto : matchTagOpen s with
  | none => rw [hto] at h; simp at h
  | some wsr =>
    rw [hto] at h
    obtain ⟨w, segs, r⟩ := wsr
    have hs := matchTagOpen_spec s w segs r hto
    obtain ⟨k, hk, ht⟩ := tryCands_inv w segs r tryEmptyAt _ _ h
    obtain ⟨hsel, hn⟩ := tryEmptyAt_spec _ _ _ _ ht
    refine ⟨?_, hn⟩
    rw [hsel, hs]
    refine ⟨['<'], joinTail (segs.drop k) ++ r, ?_⟩
    have hjt : joinTail segs = joinTail (segs.take k) ++ joinTail (segs.drop k) := by
      rw [← joinTail_append, List.take_append_drop]
    rw [hjt]
    simp [List.append_assoc]

theorem matchSelfClose_infix (s : List Char) (cap : TagCap) (n : Nat)
    (h : matchSelfClose s = some (cap, n)) : (cap.sel <:+: s) ∧ 1 ≤ n := by
  unfold matchSelfClose at h
  cases hto : matchTagOpen s with
  | none => rw [hto] at h; simp at h
  | some wsr =>
    rw [hto] at h
    obtain ⟨w, segs, r⟩ := wsr
    have hs := matchTagOpen_spec s w segs r hto
    dsimp only at h
    split at h
    · split at h
      · simp only [Option.some.injEq, Prod.mk.injEq] at h
        obtain ⟨h1, h2⟩ := h
        constructor
        · rw [← h1, hs]
          exact ⟨['<'], r, by simp [List.append_assoc]⟩
        · omega
      · simp at h
    · simp at h

/-! Identity of the stateful passes when no matched selector is registered. -/

theorem assocGet_mem (m : List (String × ν)) (k : String) (v : ν)
    (h : assocGet m k = some v) : (k, v) ∈ m := by
  unfold assocGet at h
  cases hf : m.find? (fun kv => kv.1 == k) with
  | none => rw [hf] at h; simp at h
  | some kv =>
    rw [hf] at h
    simp at h
    have hmem := List.mem_of_find?_eq_some hf
    have hkey : kv.1 = k := by simpa using List.find?_some hf
    have : (k, v) = kv := by
      cases kv
      simp_all
    rw [this]
    exact hmem

theorem tagCbNoInner_null (map : List (String × ComponentMeta)) (year : Nat) (cap : TagCap)
    (h : assocGet map (String.mk cap.sel) = none) (st : InlineState) :
    tagCbNoInner map year cap st = (none, st) := by
  simp [tagCbNoInner, processComponentRepl, processComponentSt, h]

theorem pairedCb_null (map : List (String × ComponentMeta)) (year : Nat) (cap : TagCap)
    (h : assocGet map (String.mk cap.sel) = none) (st : InlineState) :
    pairedCb map year cap st = (none, st) := by
  simp [pairedCb, processComponentRepl, processComponentSt, h]

theorem replaceStAux_id (m : List Char → Option (α × Nat))
    (f : α → InlineState → Option (List Char) × InlineState) :
    ∀ (fuel : Nat) (s : List Char),
    (∀ u a n st, u <:+ s → m u = some (a, n) → f a st = (none, st) ∧ 1 ≤ n) →
    ∀ st, replaceStAux m f fuel s st = (s, st) := by
  intro fuel
  induction fuel with
  | zero => intro s _ st; cases s <;> simp [replaceStAux]
  | succ nf ih =>
    intro s H st
    cases s with
    | nil => simp [replaceStAux]
    | cons c cs =>
      simp only [replaceStAux]
      cases hm : m (c :: cs) with
      | none =>
        have hrec := ih cs
          (fun u a n st' hu hm' => H u a n st' (hu.trans (List.suffix_cons c cs)) hm') st
        simp [hrec]
      | some an =>
        obtain ⟨a, n⟩ := an
        have hf := H (c :: cs) a n st (List.suffix_refl _) hm
        have hrec := ih (cs.drop (n - 1))
          (fun u a' n' st' hu hm' =>
            H u a' n' st'
              (hu.trans ((List.drop_suffix _ _).trans (List.suffix_cons c cs))) hm')
          st
        dsimp only
        rw [hf.1]
        dsimp only
        rw [hrec]
        have hdrop : cs.drop (n - 1) = (c :: cs).drop n := by
          have hn : n - 1 + 1 = n := by omega
          conv_rhs => rw [← hn]
          rw [List.drop_succ_cons]
        rw [hdrop, List.take_append_drop]

theorem selfClosePass_id (map : List (String × ComponentMeta)) (year : Nat)
    (html : String) (st : InlineState)
    (H : ∀ p ∈ map, ¬ (p.1.data <:+: html.data)) :
    selfClosePass map year html st = (html, st) := by
  unfold selfClosePass replaceSt
  rw [replaceStAux_id matchSelfClose (tagCbNoInner map year) html.data.length html.data
    (fun u a n st' hu hm => by
      obtain ⟨hinf, hn⟩ := matchSelfClose_infix u a n hm
      have hsinf : a.sel <:+: html.data := hinf.trans hu.isInfix
      have hg : assocGet map (String.mk a.sel) = none := by
        cases hg2 : assocGet map (String.mk a.sel) with
        | none => rfl
        | some comp =>
          exact absurd hsinf (H (String.mk a.sel, comp) (assocGet_mem _ _ _ hg2))
      exact ⟨tagCbNoInner_null map year a hg st', hn⟩)
    st]

theorem pairedPass_id (map : List (String × ComponentMeta)) (year : Nat)
    (html : String) (st : InlineState)
    (H : ∀ p ∈ map, ¬ (p.1.data <:+: html.data)) :
    pairedPass map year html st = (html, st) := by
  unfold pairedPass replaceSt
  rw [replaceStAux_id matchPaired (pairedCb map year) html.data.length html.data
    (fun u a n st' hu hm => by
      obtain ⟨hinf, hn⟩ := matchPaired_infix u a n hm
      have hsinf : a.sel <:+: html.data := hinf.trans hu.isInfix
      have hg : assocGet map (String.mk a.sel) = none := by
        cases hg2 : assocGet map (String.mk a.sel) with
        | none => rfl
        | some comp =>
          exact absurd hsinf (H (String.mk a.sel, comp) (assocGet_mem _ _ _ hg2))
      exact ⟨pairedCb_null map year a hg st', hn⟩)
    st]

theorem emptyPairPass_id (map : List (String × ComponentMeta)) (year : Nat)
    (html : String) (st : InlineState)
    (H : ∀ p ∈ map, ¬ (p.1.data <:+: html.data)) :
    emptyPairPass map year html st = (html, st) := by
  unfold emptyPairPass replaceSt
  rw [replaceStAux_id matchEmptyPair (tagCbNoInner map year) html.data.length html.data
    (fun u a n st' hu hm => by
      obtain ⟨hinf, hn⟩ := matchEmptyPair_infix u a n hm
      have hsinf : a.sel <:+: html.data := hinf.trans hu.isInfix
      have hg : assocGet map (String.mk a.sel) = none := by
        cases hg2 : assocGet map (String.mk a.sel) with
        | none => rfl
        | some comp =>
          exact absurd hsinf (H (String.mk a.sel, comp) (assocGet_mem _ _ _ hg2))
      exact ⟨tagCbNoInner_null map year a hg st', hn⟩)
    st]

theorem inlinerPass_id (map : List (String × ComponentMeta)) (year : Nat)
    (html : String) (st : InlineState)
    (H : ∀ p ∈ map, ¬ (p.1.data <:+: html.data)) :
    inlinerPass map year html st = (html, st) := by
  unfold inlinerPass
  rw [pairedPass_id map year html st H]
  exact emptyPairPass_id map year html st H

theorem loopAux_of_stable (map : List (String × ComponentMeta)) (year : Nat) :
    ∀ (fuel : Nat) (last cur : String) (st : InlineState),
    inlinerPass map year cur st = (cur, st) →
    ∃ n, loopAux map year fuel last cur st = (cur, st, n) := by
  intro fuel
  induction fuel with
  | zero => intro last cur st _; exact ⟨0, rfl⟩
  | succ nf ih =>
    intro last cur st hp
    by_cases hl : cur = last
    · exact ⟨0, by simp [loopAux, hl]⟩
    · obtain ⟨n, hn⟩ := ih cur cur st hp
      refine ⟨n + 1, ?_⟩
      simp only [loopAux, if_neg hl, hp]
      rw [hn]

/-- C4: when no registered selector occurs anywhere in the page markup, the
inliner returns the markup byte-for-byte unchanged and aggregates no styles
and no scripts; in particular every custom tag with an unregistered selector
is left verbatim and contributes nothing. -/
theorem c4_unregistered_selectors_passthrough (year : Nat) (html : String)
    (meta : List ComponentMeta)
    (H : ∀ p ∈ buildComponentMap meta, ¬ (p.1.data <:+: html.data)) :
    processReusableComponents year html meta =
      { html := html, componentStyles := "", componentScripts := "" } := by
  unfold processReusableComponents inlinerRun
  by_cases hm : meta.isEmpty
  · simp [hm, initState]
  · simp only [hm, Bool.false_eq_true, if_false]
    have hself := selfClosePass_id (buildComponentMap meta) year html initState H
    rw [hself]
    obtain ⟨n, hn⟩ := loopAux_of_stable (buildComponentMap meta) year 20 "" html initState
      (inlinerPass_id (buildComponentMap meta) year html initState H)
    rw [hn]
    rfl

/-- Witness for C4: the spec's unregistered-tag example against a nonempty
registry holding only `app-button`. -/
theorem c4_unregistered_selectors_passthrough_witness :
    processReusableComponents 2023 "<unknown-widget foo=\"1\"></unknown-widget>"
      [exButtonMeta] =
      { html := "<unknown-widget foo=\"1\"></unknown-widget>",
        componentStyles := "", componentScripts := "" } :=
  c4_unregistered_selectors_passthrough 2023 "<unknown-widget foo=\"1\"></unknown-widget>"
    [exButtonMeta] (by decide)

/-! The emitted markup of the stateful passes does not depend on the
expansion state, so the loop's markup evolution is a plain iteration. -/

theorem replaceStAux_fst_indep (m : List Char → Option (α × Nat))
    (f : α → InlineState → Option (List Char) × InlineState)
    (hf : ∀ a st st', (f a st).1 = (f a st').1) :
    ∀ (fuel : Nat) (s : List Char) (st st' : InlineState),
    (replaceStAux m f fuel s st).1 = (replaceStAux m f fuel s st').1 := by
  intro fuel
  induction fuel with
  | zero => intro s st st'; cases s <;> rfl
  | succ nf ih =>
    intro s st st'
    cases s with
    | nil => rfl
    | cons c cs =>
      simp only [replaceStAux]
      cases hm : m (c :: cs) with
      | none => simp [ih cs st st']
      | some an =>
        obtain ⟨a, n⟩ := an
        dsimp only
        rw [hf a st st', ih (cs.drop (n - 1)) (f a st).2 (f a st').2]

theorem pairedPass_fst_indep (map : List (String × ComponentMeta)) (year : Nat)
    (s : String) (st st' : InlineState) :
    (pairedPass map year s st).1 = (pairedPass map year s st').1 := by
  unfold pairedPass replaceSt
  dsimp only
  rw [replaceStAux_fst_indep matchPaired (pairedCb map year) (fun a st1 st2 => rfl)
    s.data.length s.data st st']

theorem emptyPairPass_fst_indep (map : List (String × ComponentMeta)) (year : Nat)
    (s : String) (st st' : InlineState) :
    (emptyPairPass map year s st).1 = (emptyPairPass map year s st').1 := by
  unfold emptyPairPass replaceSt
  dsimp only
  rw [replaceStAux_fst_indep matchEmptyPair (tagCbNoInner map year) (fun a st1 st2 => rfl)
    s.data.length s.data st st']

theorem inlinerPass_fst (map : List (String × ComponentMeta)) (year : Nat)
    (s : String) (st : InlineState) :
    (inlinerPass map year s st).1 = inlinerPassH map year s := by
  unfold inlinerPass inlinerPassH
  dsimp only
  have h1 : (pairedPass map year s st).1 = (pairedPass map year s initState).1 :=
    pairedPass_fst_indep map year s st initState
  rw [h1]
  exact emptyPairPass_fst_indep map year ((pairedPass map year s initState).1)
    (pairedPass map year s st).2 (pairedPass map year s initState).2

/-- Full characterization of the bounded loop: the executed pass count is
bounded by the fuel, the final markup is that many pass iterations, passes
before the stop index all changed the markup, and a stop under the cap means
the last pass made no change (with the initial previous markup empty). -/
theorem loopAux_spec (map : List (String × ComponentMeta)) (year : Nat) :
    ∀ (fuel : Nat) (last cur : String) (st : InlineState),
    (loopAux map year fuel last cur st).2.2 ≤ fuel ∧
    (loopAux map year fuel last cur st).1 =
      (inlinerPassH map year)^[(loopAux map year fuel last cur st).2.2] cur ∧
    (∀ j, j < (loopAux map year fuel last cur st).2.2 →
      (inlinerPassH map year)^[j] cur ≠
        (if j = 0 then last else (inlinerPassH map year)^[j - 1] cur)) ∧
    ((loopAux map year fuel last cur st).2.2 < fuel →
      (inlinerPassH map year)^[(loopAux map year fuel last cur st).2.2] cur =
        (if (loopAux map year fuel last cur st).2.2 = 0 then last
         else (inlinerPassH map year)^[(loopAux map year fuel last cur st).2.2 - 1] cur)) := by
  intro fuel
  induction fuel with
  | zero =>
    intro last cur st
    refine ⟨Nat.le_refl 0, rfl, ?_, ?_⟩
    · intro j hj; exact absurd hj (Nat.not_lt_zero j)
    · intro hlt; exact absurd hlt (by omega)
  | succ nf ih =>
    intro last cur st
    by_cases hl : cur = last
    · simp only [loopAux, if_pos hl]
      refine ⟨by omega, rfl, ?_, ?_⟩
      · intro j hj; exact absurd hj (Nat.not_lt_zero j)
      · intro _; simpa using hl
    · simp only [loopAux, if_neg hl]
      rw [inlinerPass_fst map year cur st]
      obtain ⟨ih1, ih2, ih3, ih4⟩ :=
        ih cur (inlinerPassH map year cur) (inlinerPass map year cur st).2
      refine ⟨by omega, ?_, ?_, ?_⟩
      · rw [ih2]
        exact (Function.iterate_succ_apply (inlinerPassH map year) _ cur).symm
      · intro j hj
        cases j with
        | zero =>
          rw [if_pos rfl, Function.iterate_zero_apply]
          exact hl
        | succ j2 =>
          have h3 := ih3 j2 (by omega)
          rw [if_neg (by omega), Nat.add_sub_cancel,
            Function.iterate_succ_apply (inlinerPassH map year) j2 cur]
          cases j2 with
          | zero =>
            rw [if_pos rfl, Function.iterate_zero_apply] at h3
            rw [Function.iterate_zero_apply, Function.iterate_zero_apply]
            exact h3
          | succ j3 =>
            rw [if_neg (by omega), Nat.add_sub_cancel] at h3
            rw [Function.iterate_succ_apply (inlinerPassH map year) j3 cur]
            exact h3
      · intro hlt
        have h4 := ih4 (by omega)
        rw [if_neg (by omega), Nat.add_sub_cancel]
        cases hcn : (loopAux map year nf cur (inlinerPassH map year cur)
            (inlinerPass map year cur st).2).2.2 with
        | zero =>
          rw [hcn] at h4
          rw [if_pos rfl, Function.iterate_zero_apply] at h4
          rw [Function.iterate_succ_apply (inlinerPassH map year) 0 cur,
            Function.iterate_zero_apply, Function.iterate_zero_apply]
          exact h4
        | succ n2 =>
          rw [hcn] at h4
          rw [if_neg (by omega), Nat.add_sub_cancel] at h4
          rw [Function.iterate_succ_apply (inlinerPassH map year) (n2 + 1) cur,
            Function.iterate_succ_apply (inlinerPassH map year) n2 cur]
          exact h4

/-- C1: for every page markup and every nonempty registry, including one
whose components reference themselves or each other cyclically, the
paired-tag expansion loop executes at most 20 passes; the result is exactly
that many pass iterations of the markup; every executed pass except possibly
the stopping one changed the markup (the initial previous markup being the
empty string); and a stop before the cap of 20 means the markup was
textually unchanged — whichever of the two stop conditions happens first. -/
theorem c1_loop_stops_at_fixpoint_or_cap (year : Nat) (html : String)
    (meta : List ComponentMeta) (hm : meta ≠ []) :
    inlinerPassCount year html meta ≤ 20 ∧
    (processReusableComponents year html meta).html =
      inlinerSeq year html meta (inlinerPassCount year html meta) ∧
    (∀ j, j < inlinerPassCount year html meta →
      inlinerSeq year html meta j ≠
        (if j = 0 then "" else inlinerSeq year html meta (j - 1))) ∧
    (inlinerPassCount year html meta < 20 →
      inlinerSeq year html meta (inlinerPassCount year html meta) =
        (if inlinerPassCount year html meta = 0 then ""
         else inlinerSeq year html meta (inlinerPassCount year html meta - 1))) := by
  have hme : meta.isEmpty = false := by
    cases meta with
    | nil => exact absurd rfl hm
    | cons c t => rfl
  unfold inlinerPassCount processReusableComponents inlinerRun inlinerSeq inlinerStart
  simp only [hme, Bool.false_eq_true, if_false]
  exact loopAux_spec (buildComponentMap meta) year 20 ""
    (selfClosePass (buildComponentMap meta) year html initState).1
    (selfClosePass (buildComponentMap meta) year html initState).2

/-- Witness for C1 at a concrete self-referential registry. -/
theorem c1_loop_stops_at_fixpoint_or_cap_witness :
    inlinerPassCount 2023 "" [exCycleMeta] ≤ 20 :=
  (c1_loop_stops_at_fixpoint_or_cap 2023 "" [exCycleMeta] (by simp)).1

/-! Deduplication: the accumulators stay coherent through every pass. -/

theorem blocksConcat_append_one (f : String → String) (l : List String) (x : String) :
    blocksConcat f (l ++ [x]) = blocksConcat f l ++ f x := by
  induction l with
  | nil => simp [blocksConcat]
  | cons s t ih => simp [blocksConcat, ih, String.append_assoc]

theorem processComponentSt_coherent (map : List (String × ComponentMeta)) (sel : String)
    (st : InlineState) (h : stateCoherent map st) :
    stateCoherent map (processComponentSt map sel st) := by
  unfold processComponentSt
  cases hg : assocGet map sel with
  | none => exact h
  | some c =>
    dsimp only
    by_cases hc : st.processed.contains sel = true
    · rw [if_pos hc]; exact h
    · rw [if_neg hc]
      have hmem : sel ∉ st.processed := by
        intro hin
        exact hc (List.elem_iff.mpr hin)
      obtain ⟨h1, h2, h3⟩ := h
      refine ⟨?_, ?_, ?_⟩
      · show st.styles ++ styleBlock sel c =
          blocksConcat (styleBlockOf map) (st.processed ++ [sel])
        rw [blocksConcat_append_one, h1]
        have : styleBlockOf map sel = styleBlock sel c := by
          unfold styleBlockOf
          rw [hg]
        rw [this]
      · show st.scripts ++ scriptBlock sel c =
          blocksConcat (scriptBlockOf map) (st.processed ++ [sel])
        rw [blocksConcat_append_one, h2]
        have : scriptBlockOf map sel = scriptBlock sel c := by
          unfold scriptBlockOf
          rw [hg]
        rw [this]
      · show (st.processed ++ [sel]).Nodup
        simp [List.nodup_append, h3, hmem]

theorem replaceStAux_pres (m : List Char → Option (α × Nat))
    (f : α → InlineState → Option (List Char) × InlineState)
    (P : InlineState → Prop) (hf : ∀ a st, P st → P ((f a st).2)) :
    ∀ (fuel : Nat) (s : List Char) (st : InlineState), P st →
    P ((replaceStAux m f fuel s st).2) := by
  intro fuel
  induction fuel with
  | zero => intro s st h; cases s <;> exact h
  | succ nf ih =>
    intro s st h
    cases s with
    | nil => exact h
    | cons c cs =>
      simp only [replaceStAux]
      cases hm : m (c :: cs) with
      | none => exact ih cs st h
      | some an =>
        obtain ⟨a, n⟩ := an
        dsimp only
        exact ih (cs.drop (n - 1)) ((f a st).2) (hf a st h)

theorem tagCbNoInner_pres (map : List (String × ComponentMeta)) (year : Nat)
    (a : TagCap) (st : InlineState) (h : stateCoherent map st) :
    stateCoherent map ((tagCbNoInner map year a st).2) :=
  processComponentSt_coherent map (String.mk a.sel) st h

theorem pairedCb_pres (map : List (String × ComponentMeta)) (year : Nat)
    (a : TagCap) (st : InlineState) (h : stateCoherent map st) :
    stateCoherent map ((pairedCb map year a st).2) := by
  unfold pairedCb
  dsimp only
  by_cases hg : (!hasTagLike (String.mk (a.inner.getD []))) = true
  · rw [if_pos hg]
    exact processComponentSt_coherent map (String.mk a.sel) st h
  · rw [if_neg hg]
    exact h

theorem inlinerPass_coherent (map : List (String × ComponentMeta)) (year : Nat)
    (s : String) (st : InlineState) (h : stateCoherent map st) :
    stateCoherent map ((inlinerPass map year s st).2) := by
  unfold inlinerPass pairedPass emptyPairPass replaceSt
  dsimp only
  apply replaceStAux_pres matchEmptyPair (tagCbNoInner map year) (stateCoherent map)
    (fun a st' h' => tagCbNoInner_pres map year a st' h')
  apply replaceStAux_pres matchPaired (pairedCb map year) (stateCoherent map)
    (fun a st' h' => pairedCb_pres map year a st' h')
  exact h

theorem loopAux_coherent (map : List (String × ComponentMeta)) (year : Nat) :
    ∀ (fuel : Nat) (last cur : String) (st : InlineState), stateCoherent map st →
    stateCoherent map ((loopAux map year fuel last cur st).2.1) := by
  intro fuel
  induction fuel with
  | zero => intro last cur st h; exact h
  | succ nf ih =>
    intro last cur st h
    by_cases hl : cur = last
    · simp only [loopAux, if_pos hl]; exact h
    · simp only [loopAux, if_neg hl]
      exact ih cur _ _ (inlinerPass_coherent map year cur st h)

theorem initState_coherent (map : List (String × ComponentMeta)) :
    stateCoherent map initState :=
  ⟨rfl, rfl, List.nodup_nil⟩

/-- C3: the aggregated styles and scripts each hold exactly one block per
recorded selector, in first-encounter order, and the recorded selector list
has no duplicates — so a selector matched any number of times contributes its
style sheet and neutralized logic source exactly once. -/
theorem c3_styles_scripts_deduplicated (year : Nat) (html : String)
    (meta : List ComponentMeta) :
    (inlinerProcessed year html meta).Nodup ∧
    (processReusableComponents year html meta).componentStyles =
      blocksConcat (styleBlockOf (buildComponentMap meta))
        (inlinerProcessed year html meta) ∧
    (processReusableComponents year html meta).componentScripts =
      blocksConcat (scriptBlockOf (buildComponentMap meta))
        (inlinerProcessed year html meta) := by
  unfold inlinerProcessed processReusableComponents inlinerRun
  by_cases hm : meta.isEmpty
  · simp only [hm, if_pos]
    exact ⟨List.nodup_nil, rfl, rfl⟩
  · simp only [hm, Bool.false_eq_true, if_false]
    have h0 : stateCoherent (buildComponentMap meta)
        ((selfClosePass (buildComponentMap meta) year html initState).2) := by
      unfold selfClosePass replaceSt
      dsimp only
      exact replaceStAux_pres matchSelfClose (tagCbNoInner (buildComponentMap meta) year)
        (stateCoherent (buildComponentMap meta))
        (fun a st' h' => tagCbNoInner_pres (buildComponentMap meta) year a st' h')
        html.data.length html.data initState (initState_coherent _)
    have h1 := loopAux_coherent (buildComponentMap meta) year 20 ""
      (selfClosePass (buildComponentMap meta) year html initState).1
      (selfClosePass (buildComponentMap meta) year html initState).2 h0
    exact ⟨h1.2.2, h1.1, h1.2.1⟩

/-- C10 counterexample: a registered self-closing tag first appearing inside
an expanded fragment does not always remain verbatim — when a matching
closing tag follows it in the fragment, the paired-tag rule consumes it as an
ordinary opening tag and expands the component, so the final markup is the
inner component's template with the tag gone. -/
theorem c10_self_closing_consumed_counterexample :
    exOuterConsuming.html_code = some "<in-w /> hi </in-w>" ∧
    (processReusableComponents 2023 "<out-w></out-w>" [exOuterConsuming, exInnerMeta]).html
      = "IN" ∧
    ¬ ("<in-w />".data <:+: "IN".data) := by
  refine ⟨rfl, by decide, by decide⟩

/-- C10 amended: self-closing custom tags are expanded only by the single
pass run before the paired-tag loop, so a registered self-closing tag that
first appears inside an expanded fragment and has no later matching closing
tag stays verbatim in the final markup, while the very same tag placed in
the original page markup is expanded. -/
theorem c10_amended_self_closing_single_pass :
    (processReusableComponents 2023 "<out-w></out-w>" [exOuterMeta, exInnerMeta]).html
      = "<in-w /> t " ∧
    (processReusableComponents 2023 "<in-w />" [exOuterMeta, exInnerMeta]).html = "IN" := by
  refine ⟨by decide, by decide⟩

end AngularParser
